import Mathlib

/-!
Verification of the template composition and merge engine of
`create-tsrouter-app` (`src/index.ts`), as a shallow embedding.

JavaScript objects holding string values (`Record<string, string>`) are
modelled as insertion-ordered association lists (`Obj`).  The object spread
`{...a, ...b}` is `jsMerge`, `Object.keys(o).sort().reduce(...)` is
`sortObject`, and `String.prototype.replace` with a string pattern (which
replaces only the first occurrence) is `jsReplace`.  Filesystem effects are
modelled as explicit traces / finite maps from paths to contents; external
collaborators (the EJS renderer, prettier) are abstract function parameters.
-/

namespace CTA

/-- A JavaScript object with string values: keys in insertion order. -/
abbrev Obj := List (String × String)

/-- Property read `o[k]` on a JS object: first binding of `k`, if any. -/
def olookup (k : String) : Obj → Option String
  | [] => none
  | p :: rest => if p.1 = k then some p.2 else olookup k rest

/-- Keys of a JS object, in insertion order (`Object.keys`). -/
def objKeys (o : Obj) : List String := o.map Prod.fst

/-- The JS object spread `{...a, ...b}`: keys of `a` in order (values for
keys also present in `b` overwritten by `b`'s value), then the keys of `b`
not present in `a`, in `b`'s order. -/
def jsMerge (a b : Obj) : Obj :=
  a.map (fun p => (p.1, (olookup p.1 b).getD p.2)) ++
    b.filter (fun p => (olookup p.1 a).isNone)

/-- Lexicographic (character-wise) order on strings, the order of the JS
default sort comparator.  Stated via the decidable lexicographic order on
the underlying character lists. -/
def strLe (a b : String) : Prop := ¬ b.data < a.data

/-- Strict lexicographic order on strings. -/
def strLt (a b : String) : Prop := a.data < b.data

instance : DecidableRel strLt := fun a b =>
  inferInstanceAs (Decidable (a.data < b.data))

instance : DecidableRel strLe := fun a b =>
  inferInstanceAs (Decidable ¬ b.data < a.data)

instance : IsTotal String strLe :=
  ⟨fun a b => by
    rcases le_total a.data b.data with h | h
    · exact Or.inl (not_lt.mpr h)
    · exact Or.inr (not_lt.mpr h)⟩

instance : IsTrans String strLe :=
  ⟨fun _ _ _ hab hbc => not_lt.mpr (le_trans (not_lt.mp hab) (not_lt.mp hbc))⟩

/-- `sortObject` from `src/index.ts`: rebuilds the object by inserting its
keys in lexicographically sorted order (`Object.keys(obj).sort().reduce`). -/
def sortObject (o : Obj) : Obj :=
  (List.insertionSort strLe (objKeys o)).map (fun k => (k, (olookup k o).getD ""))

/-- A manifest fragment: the three maps the merge engine reads
(`dependencies`, `devDependencies`, `scripts`). -/
structure Fragment where
  dependencies : Obj := []
  devDependencies : Obj := []
  scripts : Obj := []
  deriving DecidableEq, Repr

/-- Add-on composition phase (`phase: 'setup' | 'add-on'`). -/
inductive Phase where
  | setup
  | addon
  deriving DecidableEq, Repr

/-- Routing mode (`CODE_ROUTER` / `FILE_ROUTER`). -/
inductive Mode where
  | codeRouter
  | fileRouter
  deriving DecidableEq, Repr

/-- An add-on descriptor, restricted to the fields the engine reads. -/
structure AddOn where
  id : String
  name : String
  phase : Phase
  /-- whether `existsSync(resolve(addOn.directory, 'assets'))` holds -/
  hasAssets : Bool
  command : Option (String × List String)
  warning : Option String
  shadcnComponents : List String
  packageAdditions : Fragment
  deriving DecidableEq, Repr

/-- The resolved `Options` record passed to `createApp`. -/
structure Options where
  typescript : Bool
  tailwind : Bool
  packageManager : String
  mode : Mode
  addOns : Bool
  chosenAddOns : List AddOn
  deriving DecidableEq, Repr

/-- The package.json document as the engine manipulates it. -/
structure PackageJSON where
  name : String
  dependencies : Obj := []
  devDependencies : Obj := []
  scripts : Obj := []
  deriving DecidableEq, Repr

/-- The typescript step of `createPackageJSON`: spread of the base object
with `devDependencies` merged from `package.ts.json` (only that map). -/
def tsStep (p : PackageJSON) (f : Fragment) : PackageJSON :=
  { p with devDependencies := jsMerge p.devDependencies f.devDependencies }

/-- The tailwind step of `createPackageJSON`: merges only `dependencies`
from `package.tw.json`. -/
def twStep (p : PackageJSON) (f : Fragment) : PackageJSON :=
  { p with dependencies := jsMerge p.dependencies f.dependencies }

/-- The file-router step of `createPackageJSON`: merges only `dependencies`
from `package.fr.json`. -/
def frStep (p : PackageJSON) (f : Fragment) : PackageJSON :=
  { p with dependencies := jsMerge p.dependencies f.dependencies }

/-- One add-on's `packageAdditions` step of `createPackageJSON`: merges
`dependencies`, `devDependencies` and `scripts`, each independently. -/
def addOnStep (p : PackageJSON) (f : Fragment) : PackageJSON :=
  { p with
    dependencies := jsMerge p.dependencies f.dependencies
    devDependencies := jsMerge p.devDependencies f.devDependencies
    scripts := jsMerge p.scripts f.scripts }

/-- `createPackageJSON` from `src/index.ts`: sets `name` to the project
name, then conditionally merges the typescript / tailwind / file-router
variant fragments, then each add-on's contribution in selection order, and
finally re-emits `dependencies` and `devDependencies` sorted by key. -/
def createPackageJSON (projectName : String) (o : Options) (base : PackageJSON)
    (ts tw fr : Fragment) (addOns : List Fragment) : PackageJSON :=
  let p0 := { base with name := projectName }
  let p1 := if o.typescript then tsStep p0 ts else p0
  let p2 := if o.tailwind then twStep p1 tw else p1
  let p3 := if o.mode == Mode.fileRouter then frStep p2 fr else p2
  let p4 := addOns.foldl addOnStep p3
  { p4 with
    dependencies := sortObject p4.dependencies
    devDependencies := sortObject p4.devDependencies }

/-- The value the merge chain assigns to key `k`: the latest fragment in
the list holding `k` wins (`none` when no fragment holds it). -/
def lastWrite (k : String) (frags : List Obj) : Option String :=
  frags.foldl (fun acc ob => (olookup k ob).or acc) none

/-- The `dependencies` map accumulated by the variant steps, before add-on
contributions. -/
def depsPreAddOns (o : Options) (base : PackageJSON) (tw fr : Fragment) : Obj :=
  if o.mode == Mode.fileRouter then
    jsMerge
      (if o.tailwind then jsMerge base.dependencies tw.dependencies
       else base.dependencies) fr.dependencies
  else
    (if o.tailwind then jsMerge base.dependencies tw.dependencies
     else base.dependencies)

/-- The `devDependencies` map accumulated by the variant steps, before
add-on contributions. -/
def devDepsPreAddOns (o : Options) (base : PackageJSON) (ts : Fragment) : Obj :=
  if o.typescript then jsMerge base.devDependencies ts.devDependencies
  else base.devDependencies

/-- The fragments whose `dependencies` maps are actually merged into the
final `dependencies`, in merge order. -/
def depsFragments (o : Options) (base : PackageJSON) (tw fr : Fragment)
    (addOns : List Fragment) : List Obj :=
  [base.dependencies] ++
    (if o.tailwind then [tw.dependencies] else []) ++
    (if o.mode == Mode.fileRouter then [fr.dependencies] else []) ++
    addOns.map Fragment.dependencies

/-- The fragments whose `devDependencies` maps are actually merged into the
final `devDependencies`, in merge order. -/
def devDepsFragments (o : Options) (base : PackageJSON) (ts : Fragment)
    (addOns : List Fragment) : List Obj :=
  [base.devDependencies] ++
    (if o.typescript then [ts.devDependencies] else []) ++
    addOns.map Fragment.devDependencies

/-- The fragments whose `scripts` maps are merged into the final `scripts`,
in merge order (only the base and the add-ons contribute scripts). -/
def scriptsFragments (base : PackageJSON) (addOns : List Fragment) : List Obj :=
  base.scripts :: addOns.map Fragment.scripts

/-- Keys of a merge chain in insertion order: each fragment appends, in its
own order, those of its keys not already present. -/
def insertionKeys (frags : List Obj) : List String :=
  frags.foldl (fun ks ob => ks ++ (objKeys ob).filter (fun k => decide (k ∉ ks))) []

/-- JS `String.prototype.endsWith`. -/
def endsWithS (s pat : String) : Bool := pat.data.isSuffixOf s.data

/-- JS `String.prototype.replace` with a string pattern and empty
replacement, on character lists: removes the first occurrence of `pat`
(anywhere in the string, not only a trailing suffix); identity when `pat`
does not occur. -/
def replaceFirstAux (pat : List Char) : List Char → List Char
  | [] => []
  | c :: rest =>
    if pat.isPrefixOf (c :: rest) then (c :: rest).drop pat.length
    else c :: replaceFirstAux pat rest

/-- JS `s.replace(pat, '')` for a string pattern `pat`. -/
def jsReplace (s pat : String) : String := ⟨replaceFirstAux pat.data s.data⟩

/-- Whether `pat` occurs as a contiguous substring, starting at any
position of the list. -/
def substrOccursAux (pat : List Char) : List Char → Bool
  | [] => pat.isEmpty
  | c :: rest => pat.isPrefixOf (c :: rest) || substrOccursAux pat rest

/-- Whether `pat` occurs as a contiguous substring of `s`. -/
def substrOccurs (s pat : String) : Bool := substrOccursAux pat.data s.data

/-- Target filename computed by `createCopyFiles`'s `copyFiles`:
`file.replace('.tw', '')`. -/
def copyFilesTargetName (file : String) : String := jsReplace file ".tw"

/-- The prettier options literal passed by `createTemplateFile`. -/
structure PrettierConfig where
  semi : Bool
  singleQuote : Bool
  trailingComma : String
  parserName : String
  deriving DecidableEq, Repr

/-- The fixed formatting style of the engine: no semicolons, single quotes,
trailing commas, typescript parsing. -/
def prettierConfig : PrettierConfig :=
  { semi := false, singleQuote := true, trailingComma := "all"
    parserName := "typescript" }

/-- The `templateValues` context handed to the EJS renderer. -/
structure TemplateValues where
  packageManager : String
  projectName : String
  typescript : Bool
  tailwind : Bool
  js : String
  jsx : String
  fileRouter : Bool
  codeRouter : Bool
  addOnEnabled : List (String × Bool)
  addOns : List AddOn
  deriving DecidableEq, Repr

/-- Builds the render context from the resolved options
(`createTemplateFile`, `src/index.ts`). -/
def templateValues (projectName : String) (o : Options) : TemplateValues :=
  { packageManager := o.packageManager
    projectName := projectName
    typescript := o.typescript
    tailwind := o.tailwind
    js := if o.typescript then "ts" else "js"
    jsx := if o.typescript then "tsx" else "jsx"
    fileRouter := o.mode == Mode.fileRouter
    codeRouter := o.mode == Mode.codeRouter
    addOnEnabled := o.chosenAddOns.map (fun a => (a.id, true))
    addOns := o.chosenAddOns }

/-- Whether the final target path triggers the prettier pass
(`target.endsWith('.ts') || target.endsWith('.tsx')`). -/
def isCodeExt (target : String) : Bool :=
  endsWithS target ".ts" || endsWithS target ".tsx"

/-- `templateFile` from `createTemplateFile`: renders the template against
the context, derives the target path (explicit override or `.ejs`
stripped), formats `.ts`/`.tsx` targets with prettier (a formatting failure
propagates as the render error), and yields the written pair
`(targetPath, content)`.  `fmt` and `render` model the external prettier
and EJS collaborators. -/
def templateFile (fmt : PrettierConfig → String → Except String String)
    (render : String → TemplateValues → String)
    (projectName : String) (o : Options) (templateContent : String)
    (file : String) (targetFileName : Option String) :
    Except String (String × String) :=
  let content := render templateContent (templateValues projectName o)
  let target := targetFileName.getD (jsReplace file ".ejs")
  if isCodeExt target then
    match fmt prettierConfig content with
    | Except.ok c => Except.ok (target, c)
    | Except.error e => Except.error e
  else
    Except.ok (target, content)

/-- A source template tree: files carry their content. -/
inductive FsTree where
  | file (name : String) (content : String)
  | dir (name : String) (children : List FsTree)

/-- Entry name of a tree node. -/
def treeName : FsTree → String
  | FsTree.file n _ => n
  | FsTree.dir n _ => n

/-- The target filesystem: path → content, in creation order. -/
abbrev Fs := List (String × String)

/-- `writeFile` / `copyFile`: overwrite an existing path or create it. -/
def fsWrite (fs : Fs) (p c : String) : Fs :=
  if (olookup p fs).isSome then
    fs.map (fun e => if e.1 = p then (p, c) else e)
  else fs ++ [(p, c)]

/-- Node `fs.promises.appendFile`: appends to an existing file, and
creates the file when the path does not exist yet. -/
def fsAppend (fs : Fs) (p c : String) : Fs :=
  match olookup p fs with
  | some old => fs.map (fun e => if e.1 = p then (p, old ++ c) else e)
  | none => fs ++ [(p, c)]

mutual

/-- `copyFilesRecursively` from `src/index.ts`, instantiated with the
callbacks `createApp` passes for add-on asset trees: directories recurse
over their entries; a `.ejs` source is rendered through `templateFile` at
the `.ejs`-stripped target path; otherwise a `.append` source is appended
(Node semantics) to the `.append`-stripped target path; any other file is
copied byte-for-byte. -/
def copyFilesRecursively (fmt : PrettierConfig → String → Except String String)
    (render : String → TemplateValues → String)
    (projectName : String) (o : Options) :
    FsTree → String → String → Fs → Except String Fs
  | FsTree.file _ content, source, target, fs =>
    if endsWithS source ".ejs" then
      match templateFile fmt render projectName o content source
          (some (jsReplace target ".ejs")) with
      | Except.ok tc => Except.ok (fsWrite fs tc.1 tc.2)
      | Except.error e => Except.error e
    else if endsWithS source ".append" then
      Except.ok (fsAppend fs (jsReplace target ".append") content)
    else
      Except.ok (fsWrite fs target content)
  | FsTree.dir _ children, source, target, fs =>
    composeChildren fmt render projectName o children source target fs

/-- The `for (const file of files)` loop of `copyFilesRecursively`:
sequential, a failure aborts the remaining entries. -/
def composeChildren (fmt : PrettierConfig → String → Except String String)
    (render : String → TemplateValues → String)
    (projectName : String) (o : Options) :
    List FsTree → String → String → Fs → Except String Fs
  | [], _, _, fs => Except.ok fs
  | c :: rest, source, target, fs =>
    match copyFilesRecursively fmt render projectName o c
        (source ++ "/" ++ treeName c) (target ++ "/" ++ treeName c) fs with
    | Except.ok fs2 => composeChildren fmt render projectName o rest source target fs2
    | Except.error e => Except.error e

end

/-- Observable filesystem / process effects of a generation run. -/
inductive Effect where
  | mkdirE (p : String)
  | copyE (src tgt : String)
  | writeE (p : String)
  | composeAssets (addOnId : String)
  | runCmd (addOnId : String) (cmd : String) (args : List String)
  | shadcnAdd (components : List String)
  | install (packageManager : String)
  deriving DecidableEq, Repr

/-- Whether an effect belongs to the add-on with the given id. -/
def effectOf (i : String) : Effect → Bool
  | Effect.composeAssets j => j == i
  | Effect.runCmd j _ _ => j == i
  | _ => false

/-- The loop body of the add-on composition loop (`createApp`,
`src/index.ts` lines 474–497): compose the add-on's asset tree when its
`assets` directory exists, then run its post-command when present. -/
def perAddOnEvents (a : AddOn) : List Effect :=
  (if a.hasAssets then [Effect.composeAssets a.id] else []) ++
    (match a.command with
     | some c => [Effect.runCmd a.id c.1 c.2]
     | none => [])

/-- Events of a list of add-ons processed in order. -/
def catEvents : List AddOn → List Effect
  | [] => []
  | a :: rest => perAddOnEvents a ++ catEvents rest

/-- The two-phase add-on loop: `for (const phase of ['setup', 'add-on'])`
over the selected add-ons filtered by phase, in selection order. -/
def addOnPhaseTrace (chosen : List AddOn) : List Effect :=
  [Phase.setup, Phase.addon].foldr
    (fun ph acc => catEvents (chosen.filter (fun a => a.phase == ph)) ++ acc) []

/-- `isAddOnEnabled` from `createApp`: whether an add-on with this id was
chosen. -/
def isAddOnEnabled (chosen : List AddOn) (i : String) : Bool :=
  chosen.any (fun a => a.id == i)

/-- The deduplicated union of chosen add-ons' shadcn components, in
first-appearance order (JS `Set` insertion order). -/
def shadcnComponentSet (chosen : List AddOn) : List String :=
  chosen.foldl
    (fun acc a => acc ++ a.shadcnComponents.filter (fun c => !(acc.contains c))) []

/-- The add-on list `createApp` works with: the interactive pick when
`--add-ons` was given, the (empty) preset list otherwise. -/
def chosenAddOnsOf (o : Options) (picked : List AddOn) : List AddOn :=
  if o.addOns then picked else o.chosenAddOns

/-- `createApp` from `src/index.ts` as an effect trace plus an
aborted-gracefully flag.  When the target directory already exists the run
logs an error and returns before touching the filesystem.  Otherwise the
trace mirrors the write sequence of the source: scaffold directories, base
and router-variant template files, the merged package.json, the two-phase
add-on composition, the shadcn install, gitignore, README and the final
dependency install.  `picked` stands for the interactive add-on selection,
`targetExists` for `existsSync(targetDir)`. -/
def createAppRun (projectName : String) (o : Options) (picked : List AddOn)
    (targetExists : Bool) : List Effect × Bool :=
  if targetExists then ([], true)
  else
    let chosen := chosenAddOnsOf o picked
    let hasStart := isAddOnEnabled chosen "start"
    let t := projectName
    ([Effect.mkdirE t, Effect.mkdirE (t ++ "/.vscode"),
      Effect.copyE "base/.vscode/settings.json" (t ++ "/.vscode/settings.json"),
      Effect.mkdirE (t ++ "/public")] ++
     ["./public/robots.txt", "./public/favicon.ico", "./public/manifest.json",
      "./public/logo192.png", "./public/logo512.png"].map
       (fun f => Effect.copyE ("base/" ++ f) (t ++ "/" ++ copyFilesTargetName f)) ++
     [Effect.mkdirE (t ++ "/src")] ++
     (if o.mode == Mode.fileRouter then
        [Effect.mkdirE (t ++ "/src/routes"), Effect.mkdirE (t ++ "/src/components")]
      else []) ++
     (if o.tailwind then []
      else [Effect.copyE "base/./src/App.css" (t ++ "/./src/App.css")]) ++
     [Effect.writeE (t ++ "/./vite.config.js"),
      Effect.writeE (t ++ "/./src/styles.css"),
      Effect.copyE "base/./src/logo.svg" (t ++ "/./src/logo.svg")] ++
     (if o.mode == Mode.fileRouter then
        [Effect.writeE (t ++ "/./src/components/Header.tsx"),
         Effect.writeE (t ++ "/./src/routes/__root.tsx"),
         Effect.writeE (t ++ "/./src/routes/index.tsx")]
      else
        [Effect.writeE
           (t ++ "/" ++ (if o.typescript then "./src/App.tsx" else "./src/App.jsx")),
         Effect.writeE
           (t ++ "/" ++
             (if o.typescript then "./src/App.test.tsx" else "./src/App.test.jsx"))]) ++
     (if hasStart then []
      else
        [Effect.writeE
           (t ++ "/" ++ (if o.typescript then "./src/main.tsx" else "./src/main.jsx"))]) ++
     (if hasStart then []
      else
        [Effect.writeE
           (t ++ "/" ++
             (if o.typescript then "./src/reportWebVitals.ts"
              else "./src/reportWebVitals.js")),
         Effect.writeE (t ++ "/./index.html")]) ++
     (if o.typescript then [Effect.writeE (t ++ "/./tsconfig.json")] else []) ++
     [Effect.writeE (t ++ "/package.json")] ++
     addOnPhaseTrace chosen ++
     (if isAddOnEnabled chosen "shadcn" && !(shadcnComponentSet chosen).isEmpty then
        [Effect.shadcnAdd (shadcnComponentSet chosen)]
      else []) ++
     [Effect.copyE "base/gitignore" (t ++ "/.gitignore"),
      Effect.writeE (t ++ "/README.md"),
      Effect.install o.packageManager],
     false)

/-- The `--template` CLI choice. -/
inductive Template where
  | typescript
  | javascript
  | fileRouter
  deriving DecidableEq, Repr

/-- The parsed CLI options handed to `program.action`. -/
structure CliOptions where
  template : Template
  tailwind : Bool
  packageManager : String
  addOns : Bool
  deriving DecidableEq, Repr

/-- The error commander raises from the action callback. -/
inductive CliError where
  | invalidArgument (msg : String)
  deriving DecidableEq, Repr

/-- Resolution of CLI options into the `Options` record `createApp`
receives (the tail of `program.action`). -/
def mkOptions (c : CliOptions) : Options :=
  { typescript := c.template == Template.typescript || c.template == Template.fileRouter
    tailwind := c.tailwind
    packageManager := c.packageManager
    mode := if c.template == Template.fileRouter then Mode.fileRouter else Mode.codeRouter
    addOns := c.addOns
    chosenAddOns := [] }

/-- `program.action` from `src/index.ts`: when `--add-ons` is given, a
non-file-router template is rejected with `InvalidArgumentError` before
`createApp` is invoked, and tailwind is forced on; otherwise the resolved
options are handed to `createApp`. -/
def programAction (projectName : String) (c : CliOptions) :
    Except CliError (String × Options) :=
  if c.addOns then
    if c.template == Template.fileRouter then
      Except.ok (projectName, mkOptions { c with tailwind := true })
    else
      Except.error (CliError.invalidArgument
        "Add-ons are only available for the file-router template")
  else
    Except.ok (projectName, mkOptions c)

/-- A full run: argument resolution, then `createApp`.  A thrown
`InvalidArgumentError` prevents `createApp` from running, so the effect
trace is empty in that case. -/
def runProgram (projectName : String) (c : CliOptions) (picked : List AddOn)
    (targetExists : Bool) : List Effect :=
  match programAction projectName c with
  | Except.error _ => []
  | Except.ok r => (createAppRun r.1 r.2 picked targetExists).1

/-! ### Concrete fixtures used by witnesses -/

/-- A resolved options record for a plain typescript run. -/
def optC : Options :=
  { typescript := true
    tailwind := true
    packageManager := "pnpm"
    mode := Mode.fileRouter
    addOns := false
    chosenAddOns := [] }

/-- CLI options: javascript template with `--add-ons`. -/
def cliJs : CliOptions :=
  { template := Template.javascript
    tailwind := false
    packageManager := "npm"
    addOns := true }

/-- CLI options: file-router template with `--add-ons`. -/
def cliFr : CliOptions :=
  { template := Template.fileRouter
    tailwind := false
    packageManager := "npm"
    addOns := true }

/-- A setup-phase add-on with assets and a post-command. -/
def addOnA : AddOn :=
  { id := "start"
    name := "Start"
    phase := Phase.setup
    hasAssets := true
    command := some ("npm", ["run", "gen"])
    warning := none
    shadcnComponents := []
    packageAdditions := {} }

/-- An add-on-phase add-on with assets and no post-command. -/
def addOnB : AddOn :=
  { id := "sentry"
    name := "Sentry"
    phase := Phase.addon
    hasAssets := true
    command := none
    warning := none
    shadcnComponents := []
    packageAdditions := {} }

/-! ### Lemmas on JS objects -/

theorem olookup_append (k : String) (a b : Obj) :
    olookup k (a ++ b) = (olookup k a).or (olookup k b) := by
  induction a with
  | nil => simp [olookup]
  | cons p rest ih =>
    by_cases h : p.1 = k <;> simp [olookup, h, ih]

theorem olookup_map_keyed (f : String → String → String) (a : Obj) (k : String) :
    olookup k (a.map (fun p => (p.1, f p.1 p.2))) = (olookup k a).map (f k) := by
  induction a with
  | nil => simp [olookup]
  | cons p rest ih =>
    by_cases h : p.1 = k
    · subst h; simp [olookup]
    · simp [olookup, h, ih]

theorem olookup_filter_of_none {k : String} {a : Obj} (h : olookup k a = none) (b : Obj) :
    olookup k (b.filter (fun p => (olookup p.1 a).isNone)) = olookup k b := by
  induction b with
  | nil => simp
  | cons p rest ih =>
    by_cases hpk : p.1 = k
    · subst hpk
      simp [List.filter_cons, h, olookup]
    · rcases hfil : (olookup p.1 a).isNone with _ | _
      · simp [List.filter_cons, hfil, olookup, hpk, ih]
      · simp [List.filter_cons, hfil, olookup, hpk, ih]

/-- Last-writer-wins at the level of one spread: `{...a, ...b}` reads `k`
from `b` when present, else from `a`. -/
theorem olookup_jsMerge (a b : Obj) (k : String) :
    olookup k (jsMerge a b) = (olookup k b).or (olookup k a) := by
  unfold jsMerge
  rw [olookup_append, olookup_map_keyed (fun k v => (olookup k b).getD v)]
  rcases h : olookup k a with _ | v
  · simp [olookup_filter_of_none h]
  · rcases hb : olookup k b with _ | w <;> simp [hb]

theorem olookup_isSome_iff_mem (k : String) (o : Obj) :
    (olookup k o).isSome ↔ k ∈ objKeys o := by
  induction o with
  | nil => simp [olookup, objKeys]
  | cons p rest ih =>
    by_cases h : p.1 = k
    · subst h; simp [olookup, objKeys]
    · simp [olookup, objKeys, h, ih, Ne.symm h]

theorem olookup_eq_none_iff (k : String) (o : Obj) :
    olookup k o = none ↔ k ∉ objKeys o := by
  rw [← olookup_isSome_iff_mem, Option.isSome_iff_ne_none]
  simp

theorem olookup_keys_map (ks : List String) (g : String → String) (k : String) :
    olookup k (ks.map (fun x => (x, g x))) = if k ∈ ks then some (g k) else none := by
  induction ks with
  | nil => simp [olookup]
  | cons x rest ih =>
    by_cases h : x = k
    · subst h; simp [olookup]
    · simp [olookup, h, Ne.symm h, ih]

/-- `sortObject` only reorders: property reads are unchanged. -/
theorem olookup_sortObject (o : Obj) (k : String) :
    olookup k (sortObject o) = olookup k o := by
  unfold sortObject
  rw [olookup_keys_map]
  by_cases hk : k ∈ objKeys o
  · rcases ho : olookup k o with _ | v
    · exact absurd ((olookup_eq_none_iff k o).mp ho) (fun h => h hk)
    · simp [(List.perm_insertionSort strLe (objKeys o)).mem_iff, hk, ho]
  · have : olookup k o = none := (olookup_eq_none_iff k o).mpr hk
    simp [(List.perm_insertionSort strLe (objKeys o)).mem_iff, hk, this]

theorem map_fst_filter_key (q : String → Bool) (b : Obj) :
    (b.filter (fun p => q p.1)).map Prod.fst = (b.map Prod.fst).filter q := by
  induction b with
  | nil => simp
  | cons p rest ih =>
    rcases h : q p.1 with _ | _ <;> simp [List.filter_cons, h, ih]

/-- Keys of a spread: keys of `a` in order, then the new keys of `b` in
`b`'s order. -/
theorem objKeys_jsMerge (a b : Obj) :
    objKeys (jsMerge a b) =
      objKeys a ++ (objKeys b).filter (fun k => (olookup k a).isNone) := by
  unfold jsMerge objKeys
  rw [List.map_append]
  congr 1
  · induction a with
    | nil => simp
    | cons p rest ih => simp [ih]
  · exact map_fst_filter_key (fun k => (olookup k a).isNone) b

theorem objKeys_sortObject (o : Obj) :
    objKeys (sortObject o) = List.insertionSort strLe (objKeys o) := by
  show ((List.insertionSort strLe (objKeys o)).map
      (fun k => (k, (olookup k o).getD ""))).map Prod.fst = _
  rw [List.map_map]
  have hcomp : (Prod.fst ∘ fun k : String => (k, (olookup k o).getD "")) = id := rfl
  rw [hcomp, List.map_id]

/-! ### Lemmas on the merge pipeline -/

theorem foldl_addOnStep_name (l : List Fragment) (p : PackageJSON) :
    (l.foldl addOnStep p).name = p.name := by
  induction l generalizing p with
  | nil => rfl
  | cons f rest ih => exact ih (addOnStep p f)

theorem foldl_addOnStep_deps (l : List Fragment) (p : PackageJSON) :
    (l.foldl addOnStep p).dependencies =
      (l.map Fragment.dependencies).foldl jsMerge p.dependencies := by
  induction l generalizing p with
  | nil => rfl
  | cons f rest ih => exact ih (addOnStep p f)

theorem foldl_addOnStep_devDeps (l : List Fragment) (p : PackageJSON) :
    (l.foldl addOnStep p).devDependencies =
      (l.map Fragment.devDependencies).foldl jsMerge p.devDependencies := by
  induction l generalizing p with
  | nil => rfl
  | cons f rest ih => exact ih (addOnStep p f)

theorem foldl_addOnStep_scripts (l : List Fragment) (p : PackageJSON) :
    (l.foldl addOnStep p).scripts =
      (l.map Fragment.scripts).foldl jsMerge p.scripts := by
  induction l generalizing p with
  | nil => rfl
  | cons f rest ih => exact ih (addOnStep p f)

theorem olookup_foldl_jsMerge (k : String) (frags : List Obj) (init : Obj) :
    olookup k (frags.foldl jsMerge init) =
      frags.foldl (fun acc ob => (olookup k ob).or acc) (olookup k init) := by
  induction frags generalizing init with
  | nil => rfl
  | cons f rest ih =>
    show olookup k (rest.foldl jsMerge (jsMerge init f)) =
      rest.foldl (fun acc ob => (olookup k ob).or acc) ((olookup k f).or (olookup k init))
    rw [ih (jsMerge init f), olookup_jsMerge]

theorem foldl_or_shift (k : String) (frags : List Obj) (i : Option String) :
    frags.foldl (fun acc ob => (olookup k ob).or acc) i = (lastWrite k frags).or i := by
  induction frags generalizing i with
  | nil => simp [lastWrite]
  | cons f rest ih =>
    show rest.foldl _ ((olookup k f).or i) = (lastWrite k (f :: rest)).or i
    have h2 : lastWrite k (f :: rest) = (lastWrite k rest).or ((olookup k f).or none) :=
      ih ((olookup k f).or none)
    rw [ih ((olookup k f).or i), h2]
    simp [Option.or_assoc]

theorem lastWrite_append (k : String) (l1 l2 : List Obj) :
    lastWrite k (l1 ++ l2) = (lastWrite k l2).or (lastWrite k l1) := by
  show (l1 ++ l2).foldl _ none = _
  rw [List.foldl_append, foldl_or_shift]
  rfl

theorem lastWrite_cons (k : String) (ob : Obj) (rest : List Obj) :
    lastWrite k (ob :: rest) = (lastWrite k rest).or (olookup k ob) := by
  show rest.foldl _ ((olookup k ob).or none) = _
  rw [foldl_or_shift]
  simp

theorem lastWrite_nil (k : String) : lastWrite k [] = none := rfl

theorem lastWrite_single (k : String) (ob : Obj) : lastWrite k [ob] = olookup k ob := by
  rw [lastWrite_cons, lastWrite_nil]
  simp

theorem olookup_foldl_lastWrite (k : String) (frags : List Obj) (init : Obj) :
    olookup k (frags.foldl jsMerge init) = lastWrite k (init :: frags) := by
  rw [olookup_foldl_jsMerge, foldl_or_shift, lastWrite_cons]

/-! ### Nodup and key-order lemmas -/

theorem nodup_objKeys_jsMerge {a b : Obj}
    (ha : (objKeys a).Nodup) (hb : (objKeys b).Nodup) :
    (objKeys (jsMerge a b)).Nodup := by
  rw [objKeys_jsMerge, List.nodup_append]
  refine ⟨ha, hb.filter _, ?_⟩
  intro k hk hk2
  have := List.of_mem_filter hk2
  rw [Option.isNone_iff_eq_none, olookup_eq_none_iff] at this
  exact this hk

theorem nodup_foldl_jsMerge {frags : List Obj} {init : Obj}
    (hi : (objKeys init).Nodup) (hf : ∀ ob ∈ frags, (objKeys ob).Nodup) :
    (objKeys (frags.foldl jsMerge init)).Nodup := by
  induction frags generalizing init with
  | nil => exact hi
  | cons f rest ih =>
    exact ih (nodup_objKeys_jsMerge hi (hf f (List.mem_cons_self f rest)))
      (fun ob hob => hf ob (List.mem_cons_of_mem f hob))

theorem olookup_isNone_eq_decide (k : String) (o : Obj) :
    (olookup k o).isNone = decide (k ∉ objKeys o) := by
  rcases ho : olookup k o with _ | v
  · have hmem : k ∉ objKeys o := (olookup_eq_none_iff k o).mp ho
    simp [hmem]
  · have hmem : k ∈ objKeys o := (olookup_isSome_iff_mem k o).mp (by simp [ho])
    simp [hmem]

theorem objKeys_foldl_jsMerge (frags : List Obj) (init : Obj) :
    objKeys (frags.foldl jsMerge init) =
      frags.foldl
        (fun ks ob => ks ++ (objKeys ob).filter (fun k => decide (k ∉ ks))) (objKeys init) := by
  induction frags generalizing init with
  | nil => rfl
  | cons f rest ih =>
    show objKeys (rest.foldl jsMerge (jsMerge init f)) =
      rest.foldl (fun ks ob => ks ++ (objKeys ob).filter (fun k => decide (k ∉ ks)))
        (objKeys init ++ (objKeys f).filter (fun k => decide (k ∉ objKeys init)))
    rw [ih (jsMerge init f), objKeys_jsMerge]
    have hpred : (fun k => (olookup k init).isNone) =
        (fun k => decide (k ∉ objKeys init)) :=
      funext fun k => olookup_isNone_eq_decide k init
    rw [hpred]

theorem insertionKeys_cons (ob : Obj) (rest : List Obj) :
    insertionKeys (ob :: rest) =
      rest.foldl
        (fun ks o2 => ks ++ (objKeys o2).filter (fun k => decide (k ∉ ks)))
        (objKeys ob) := by
  show rest.foldl _ ([] ++ (objKeys ob).filter (fun k => decide (k ∉ ([] : List String)))) = _
  have h : ([] ++ (objKeys ob).filter (fun k => decide (k ∉ ([] : List String)))) =
      objKeys ob := by simp
  rw [h]

theorem objKeys_foldl_insertionKeys (frags : List Obj) (init : Obj) :
    objKeys (frags.foldl jsMerge init) = insertionKeys (init :: frags) := by
  rw [objKeys_foldl_jsMerge, insertionKeys_cons]

/-- Closed forms for the four fields of the merged manifest. -/
theorem createPackageJSON_fields (n : String) (o : Options) (base : PackageJSON)
    (ts tw fr : Fragment) (addOns : List Fragment) :
    (createPackageJSON n o base ts tw fr addOns).name = n
    ∧ (createPackageJSON n o base ts tw fr addOns).dependencies =
        sortObject ((addOns.map Fragment.dependencies).foldl jsMerge
          (depsPreAddOns o base tw fr))
    ∧ (createPackageJSON n o base ts tw fr addOns).devDependencies =
        sortObject ((addOns.map Fragment.devDependencies).foldl jsMerge
          (devDepsPreAddOns o base ts))
    ∧ (createPackageJSON n o base ts tw fr addOns).scripts =
        (addOns.map Fragment.scripts).foldl jsMerge base.scripts := by
  cases htc : o.typescript <;> cases htw : o.tailwind <;>
    cases hm : o.mode == Mode.fileRouter <;>
      simp [createPackageJSON, depsPreAddOns, devDepsPreAddOns, htc, htw, hm,
        tsStep, twStep, frStep,
        foldl_addOnStep_name, foldl_addOnStep_deps, foldl_addOnStep_devDeps,
        foldl_addOnStep_scripts]

/-! ### Claim theorems -/

/-- C1 (counterexample): the claim states that for every key present in two
fragments at different merge positions the final value is the later
fragment's value.  This fails: the language-variant (typescript) step
merges only `devDependencies`, so a `dependencies` entry of the typescript
fragment is ignored entirely.  Here the key `a` is present in the base
fragment's `dependencies` (value `1`) and in the later-merged typescript
fragment's `dependencies` (value `2`), yet the final manifest carries the
earlier value `1`, not `2`. -/
theorem c1_lastWriterWins_counterexample :
    (createPackageJSON "p"
      { typescript := true
        tailwind := false
        packageManager := "npm"
        mode := Mode.codeRouter
        addOns := false
        chosenAddOns := [] }
      { name := "base", dependencies := [("a", "1")] }
      { dependencies := [("a", "2")] } {} {} []).dependencies = [("a", "1")]
    ∧ ("1" : String) ≠ "2" :=
  ⟨by decide, by decide⟩

/-- C1 (amended): the merge order is fixed — base, then the typescript
variant, then the tailwind variant, then the file-router variant, then each
selected add-on's contribution in selection order — but the typescript step
contributes only its `devDependencies` map, and the tailwind and
file-router steps only their `dependencies` maps, while each add-on step
contributes all three maps.  For every key, each final map's value is the
value from the latest fragment actually merged into that map
(last-writer-wins, no error on collision), with `dependencies`,
`devDependencies` and `scripts` merged independently by key. -/
theorem c1_lastWriterWins_amended (n : String) (o : Options) (base : PackageJSON)
    (ts tw fr : Fragment) (addOns : List Fragment) (k : String) :
    olookup k (createPackageJSON n o base ts tw fr addOns).dependencies =
        lastWrite k (depsFragments o base tw fr addOns)
    ∧ olookup k (createPackageJSON n o base ts tw fr addOns).devDependencies =
        lastWrite k (devDepsFragments o base ts addOns)
    ∧ olookup k (createPackageJSON n o base ts tw fr addOns).scripts =
        lastWrite k (scriptsFragments base addOns) := by
  obtain ⟨-, hdeps, hdev, hscr⟩ := createPackageJSON_fields n o base ts tw fr addOns
  refine ⟨?_, ?_, ?_⟩
  · rw [hdeps, olookup_sortObject, olookup_foldl_lastWrite]
    cases htw : o.tailwind <;> cases hm : o.mode == Mode.fileRouter <;>
      simp [depsFragments, depsPreAddOns, htw, hm, lastWrite_cons, lastWrite_append,
        lastWrite_single, lastWrite_nil, olookup_jsMerge, Option.or_assoc]
  · rw [hdev, olookup_sortObject, olookup_foldl_lastWrite]
    cases htc : o.typescript <;>
      simp [devDepsFragments, devDepsPreAddOns, htc, lastWrite_cons, lastWrite_append,
        lastWrite_single, lastWrite_nil, olookup_jsMerge, Option.or_assoc]
  · rw [hscr, olookup_foldl_lastWrite]
    rfl

theorem string_data_inj : ∀ {a b : String}, a.data = b.data → a = b
  | ⟨_⟩, ⟨_⟩, h => congrArg String.mk h

theorem sorted_strLt_of_le_nodup {l : List String}
    (hs : List.Sorted strLe l) (hn : l.Nodup) : List.Sorted strLt l := by
  have hp : List.Pairwise (fun a b => strLe a b ∧ a ≠ b) l := hs.and hn
  exact hp.imp
    (fun h => lt_of_le_of_ne (not_lt.mp h.1) (fun he => h.2 (string_data_inj he)))

theorem nodup_depsPreAddOns {o : Options} {base : PackageJSON} {tw fr : Fragment}
    (h1 : (objKeys base.dependencies).Nodup)
    (h4 : (objKeys tw.dependencies).Nodup)
    (h5 : (objKeys fr.dependencies).Nodup) :
    (objKeys (depsPreAddOns o base tw fr)).Nodup := by
  have d1 : (objKeys (if o.tailwind then jsMerge base.dependencies tw.dependencies
      else base.dependencies)).Nodup := by
    cases htw : o.tailwind <;> simp [htw]
    · exact h1
    · exact nodup_objKeys_jsMerge h1 h4
  unfold depsPreAddOns
  cases hm : o.mode == Mode.fileRouter <;> simp [hm]
  · exact d1
  · exact nodup_objKeys_jsMerge d1 h5

theorem nodup_devDepsPreAddOns {o : Options} {base : PackageJSON} {ts : Fragment}
    (h2 : (objKeys base.devDependencies).Nodup)
    (h3 : (objKeys ts.devDependencies).Nodup) :
    (objKeys (devDepsPreAddOns o base ts)).Nodup := by
  unfold devDepsPreAddOns
  cases htc : o.typescript <;> simp [htc]
  · exact h2
  · exact nodup_objKeys_jsMerge h2 h3

/-- C3: for every set of input fragments (well-formed in that no single
fragment repeats a key, as JS object literals cannot), the final written
manifest has its `dependencies` and `devDependencies` each emitted in
strictly lexicographic key order regardless of contribution order, while
`scripts` preserves merge-insertion order; and the merge is deterministic,
so identical inputs yield identical output. -/
theorem c3_sorted_manifest (n : String) (o : Options) (base : PackageJSON)
    (ts tw fr : Fragment) (addOns : List Fragment)
    (h1 : (objKeys base.dependencies).Nodup)
    (h2 : (objKeys base.devDependencies).Nodup)
    (h3 : (objKeys ts.devDependencies).Nodup)
    (h4 : (objKeys tw.dependencies).Nodup)
    (h5 : (objKeys fr.dependencies).Nodup)
    (h6 : ∀ f ∈ addOns,
      (objKeys f.dependencies).Nodup ∧ (objKeys f.devDependencies).Nodup) :
    List.Sorted strLt (objKeys (createPackageJSON n o base ts tw fr addOns).dependencies)
    ∧ List.Sorted strLt
        (objKeys (createPackageJSON n o base ts tw fr addOns).devDependencies)
    ∧ objKeys (createPackageJSON n o base ts tw fr addOns).scripts =
        insertionKeys (scriptsFragments base addOns)
    ∧ createPackageJSON n o base ts tw fr addOns =
        createPackageJSON n o base ts tw fr addOns := by
  obtain ⟨-, hdeps, hdev, hscr⟩ := createPackageJSON_fields n o base ts tw fr addOns
  refine ⟨?_, ?_, ?_, rfl⟩
  · rw [hdeps, objKeys_sortObject]
    have hD : (objKeys ((addOns.map Fragment.dependencies).foldl jsMerge
        (depsPreAddOns o base tw fr))).Nodup := by
      refine nodup_foldl_jsMerge (nodup_depsPreAddOns h1 h4 h5) ?_
      intro ob hob
      rcases List.mem_map.mp hob with ⟨f, hf, rfl⟩
      exact (h6 f hf).1
    exact sorted_strLt_of_le_nodup
      (List.sorted_insertionSort strLe _)
      (((List.perm_insertionSort strLe _).nodup_iff).mpr hD)
  · rw [hdev, objKeys_sortObject]
    have hD : (objKeys ((addOns.map Fragment.devDependencies).foldl jsMerge
        (devDepsPreAddOns o base ts))).Nodup := by
      refine nodup_foldl_jsMerge (nodup_devDepsPreAddOns h2 h3) ?_
      intro ob hob
      rcases List.mem_map.mp hob with ⟨f, hf, rfl⟩
      exact (h6 f hf).2
    exact sorted_strLt_of_le_nodup
      (List.sorted_insertionSort strLe _)
      (((List.perm_insertionSort strLe _).nodup_iff).mpr hD)
  · rw [hscr, objKeys_foldl_insertionKeys]
    rfl

/-- C3 witness: a concrete run with unsorted contributions, showing the
hypotheses are satisfiable and the conclusion holds there. -/
theorem c3_sorted_manifest_witness :
    ((objKeys ({ name := "b"
                 dependencies := [("zeta", "1"), ("alpha", "2")]
                 devDependencies := [("m", "1")]
                 scripts := [("dev", "vite")] } : PackageJSON).dependencies).Nodup
    ∧ (∀ f ∈ ([{ dependencies := [("beta", "3")], scripts := [("test", "vitest")] }] :
        List Fragment),
        (objKeys f.dependencies).Nodup ∧ (objKeys f.devDependencies).Nodup))
    ∧ List.Sorted strLt (objKeys (createPackageJSON "demo"
        { typescript := true
          tailwind := false
          packageManager := "npm"
          mode := Mode.codeRouter
          addOns := false
          chosenAddOns := [] }
        { name := "b"
          dependencies := [("zeta", "1"), ("alpha", "2")]
          devDependencies := [("m", "1")]
          scripts := [("dev", "vite")] }
        {} {} {}
        [{ dependencies := [("beta", "3")], scripts := [("test", "vitest")] }]).dependencies) := by
  refine ⟨⟨by decide, ?_⟩, ?_⟩
  · intro f hf
    rw [List.mem_singleton] at hf
    subst hf
    exact ⟨by decide, by decide⟩
  · exact (c3_sorted_manifest "demo"
      { typescript := true
        tailwind := false
        packageManager := "npm"
        mode := Mode.codeRouter
        addOns := false
        chosenAddOns := [] }
      { name := "b"
        dependencies := [("zeta", "1"), ("alpha", "2")]
        devDependencies := [("m", "1")]
        scripts := [("dev", "vite")] }
      {} {} {}
      [{ dependencies := [("beta", "3")], scripts := [("test", "vitest")] }]
      (by decide) (by decide) (by decide) (by decide) (by decide)
      (by intro f hf
          rw [List.mem_singleton] at hf
          subst hf
          exact ⟨by decide, by decide⟩)).1

/-- C8: the final manifest's `name` field equals the project name — the
base template's `name` is overwritten with the project name, and every
subsequent merge step (typescript variant, tailwind variant, file-router
variant, add-on contributions) rewrites only the `dependencies`,
`devDependencies` and `scripts` fields, leaving `name` unchanged. -/
theorem c8_name_field (n : String) (o : Options) (base : PackageJSON)
    (ts tw fr : Fragment) (addOns : List Fragment) (p : PackageJSON) (f : Fragment) :
    (createPackageJSON n o base ts tw fr addOns).name = n
    ∧ (tsStep p f).name = p.name ∧ (tsStep p f).dependencies = p.dependencies
    ∧ (tsStep p f).scripts = p.scripts
    ∧ (twStep p f).name = p.name ∧ (twStep p f).devDependencies = p.devDependencies
    ∧ (twStep p f).scripts = p.scripts
    ∧ (frStep p f).name = p.name ∧ (frStep p f).devDependencies = p.devDependencies
    ∧ (frStep p f).scripts = p.scripts
    ∧ (addOnStep p f).name = p.name :=
  ⟨(createPackageJSON_fields n o base ts tw fr addOns).1,
    rfl, rfl, rfl, rfl, rfl, rfl, rfl, rfl, rfl, rfl⟩

/-- C4: if add-ons are requested while the template is not the file-router
one, `program.action` throws `InvalidArgumentError` before `createApp` is
reached, so the run has no filesystem effect: no directory and no file is
created. -/
theorem c4_addOns_require_fileRouter (n : String) (c : CliOptions)
    (picked : List AddOn) (targetExists : Bool)
    (ha : c.addOns = true) (ht : c.template ≠ Template.fileRouter) :
    programAction n c = Except.error (CliError.invalidArgument
      "Add-ons are only available for the file-router template")
    ∧ runProgram n c picked targetExists = [] := by
  have hb : (c.template == Template.fileRouter) = false := by
    simp [ht]
  constructor
  · simp [programAction, ha, hb]
  · simp [runProgram, programAction, ha, hb]

/-- C4 witness: the javascript template with `--add-ons` on a clean target
aborts with the configuration error and produces no effect. -/
theorem c4_addOns_require_fileRouter_witness :
    (cliJs.addOns = true ∧ cliJs.template ≠ Template.fileRouter)
    ∧ (programAction "demo" cliJs = Except.error (CliError.invalidArgument
        "Add-ons are only available for the file-router template")
      ∧ runProgram "demo" cliJs [] false = []) :=
  ⟨⟨rfl, by decide⟩, c4_addOns_require_fileRouter "demo" cliJs [] false rfl (by decide)⟩

/-- C5: when the target directory already exists at the pre-flight check,
the run aborts (the graceful abort flag is set exactly in this case) and
performs no filesystem effect at all: the effect trace is empty. -/
theorem c5_target_exists_aborts (n : String) (o : Options) (picked : List AddOn) :
    createAppRun n o picked true = ([], true)
    ∧ ∀ te : Bool, (createAppRun n o picked te).2 = te := by
  refine ⟨rfl, ?_⟩
  intro te
  cases te <;> rfl

/-- C10: option resolution forces tailwind on whenever add-ons are
requested and accepted; consequently every generation context that can
carry a non-empty add-on selection has the styling flag set. -/
theorem c10_addOns_force_tailwind (n : String) (c : CliOptions) (picked : List AddOn) :
    (c.addOns = true → ∀ o : Options, programAction n c = Except.ok (n, o) →
      o.tailwind = true ∧ o.addOns = true)
    ∧ (∀ o : Options, programAction n c = Except.ok (n, o) →
      chosenAddOnsOf o picked ≠ [] → o.tailwind = true) := by
  have hmain : c.addOns = true → ∀ o : Options, programAction n c = Except.ok (n, o) →
      o.tailwind = true ∧ o.addOns = true := by
    intro ha o hok
    cases hb : c.template == Template.fileRouter
    · simp [programAction, ha, hb] at hok
    · simp [programAction, ha, hb] at hok
      subst hok
      exact ⟨rfl, rfl⟩
  refine ⟨hmain, ?_⟩
  intro o hok hne
  cases hadd : c.addOns
  · simp [programAction, hadd] at hok
    subst hok
    simp [chosenAddOnsOf, mkOptions, hadd] at hne
  · exact (hmain hadd o hok).1

/-- C2 (counterexample): the claim states that an append-rule file whose
qualifier-stripped target does not yet exist makes the composer raise
`MissingAppendTargetError` and write nothing.  The code instead calls Node
`appendFile`, which creates the missing target: composing a lone
`x.append` asset over an empty target tree succeeds and writes the file
`proj/x` with the appended content — no error of any kind is raised (no
`MissingAppendTargetError` exists in the source). -/
theorem c2_appendCreatesTarget_counterexample :
    copyFilesRecursively (fun _ s => Except.ok s) (fun s _ => s) "p" optC
      (FsTree.file "x.append" "hello") "assets/x.append" "proj/x.append" []
      = Except.ok [("proj/x", "hello")] := by rfl

/-- C2 (amended): an append-rule file whose qualifier-stripped target does
not exist in the target tree is not rejected: the composer creates the
target file holding exactly the source content (Node `appendFile`
create-on-missing semantics) and reports success. -/
theorem c2_append_amended (fmt : PrettierConfig → String → Except String String)
    (render : String → TemplateValues → String) (pn : String) (o : Options)
    (nm content source target : String) (fs : Fs)
    (h1 : endsWithS source ".append" = true)
    (h2 : endsWithS source ".ejs" = false)
    (h3 : olookup (jsReplace target ".append") fs = none) :
    copyFilesRecursively fmt render pn o (FsTree.file nm content) source target fs
      = Except.ok (fs ++ [(jsReplace target ".append", content)]) := by
  simp [copyFilesRecursively, h1, h2, fsAppend, h3]

/-- C2 witness: the amended behaviour at the concrete input from the
counterexample. -/
theorem c2_append_amended_witness :
    (endsWithS "assets/x.append" ".append" = true
      ∧ endsWithS "assets/x.append" ".ejs" = false
      ∧ olookup (jsReplace "proj/x.append" ".append") ([] : Fs) = none)
    ∧ copyFilesRecursively (fun _ s => Except.ok s) (fun s _ => s) "p" optC
        (FsTree.file "x.append" "hi") "assets/x.append" "proj/x.append" []
        = Except.ok ([] ++ [(jsReplace "proj/x.append" ".append", "hi")]) :=
  ⟨⟨by decide, by decide, by decide⟩,
    c2_append_amended (fun _ s => Except.ok s) (fun s _ => s) "p" optC
      "x.append" "hi" "assets/x.append" "proj/x.append" []
      (by decide) (by decide) (by decide)⟩

/-- C7 (counterexample): the claim states a formatting failure is a fatal
render error naming the file.  Failure is indeed fatal (the rejected
promise propagates), but the raised error is the formatter's own error,
unchanged — the source passes prettier only the content and the style
options, never the path — so the error does not name the target file:
formatting `a.ts.ejs` (target `a.ts`) with a formatter failing with
`boom` yields exactly the error `boom`, which does not contain `a.ts`. -/
theorem c7_format_error_counterexample :
    templateFile (fun _ _ => Except.error "boom") (fun s _ => s) "proj" optC
      "content" "a.ts.ejs" none = Except.error "boom"
    ∧ substrOccurs "boom" "a.ts" = false :=
  ⟨by rfl, by decide⟩

/-- C7 (amended): a rendered template whose final target path ends in
`.ts` or `.tsx` is passed through the canonical prettier pass (no
semicolons, single quotes, trailing commas) before being written, a
formatting failure propagates as the fatal error (without the file name)
and nothing is written for that file, and any other target is written
with the rendered content unformatted. -/
theorem c7_format_amended (fmt : PrettierConfig → String → Except String String)
    (render : String → TemplateValues → String) (pn : String) (o : Options)
    (tc file : String) (tfn : Option String) :
    (isCodeExt (tfn.getD (jsReplace file ".ejs")) = true →
      templateFile fmt render pn o tc file tfn =
        (fmt prettierConfig (render tc (templateValues pn o))).map
          (fun cont => (tfn.getD (jsReplace file ".ejs"), cont)))
    ∧ (isCodeExt (tfn.getD (jsReplace file ".ejs")) = false →
      templateFile fmt render pn o tc file tfn =
        Except.ok (tfn.getD (jsReplace file ".ejs"), render tc (templateValues pn o))) := by
  constructor
  · intro h
    rcases hf : fmt prettierConfig (render tc (templateValues pn o)) with e | cres <;>
      simp [templateFile, h, hf, Except.map]
  · intro h
    simp [templateFile, h]

/-- C7 witness: a `.ts` target goes through the formatter. -/
theorem c7_format_amended_witness :
    isCodeExt ((none : Option String).getD (jsReplace "a.ts.ejs" ".ejs")) = true
    ∧ templateFile (fun _ s => Except.ok s) (fun s _ => s) "p" optC "x" "a.ts.ejs" none =
        ((fun (_ : PrettierConfig) (s : String) => Except.ok s) prettierConfig
            ((fun (s : String) (_ : TemplateValues) => s) "x" (templateValues "p" optC))).map
          (fun cont => ((none : Option String).getD (jsReplace "a.ts.ejs" ".ejs"), cont)) :=
  ⟨by decide,
    (c7_format_amended (fun _ s => Except.ok s) (fun s _ => s) "p" optC
      "x" "a.ts.ejs" none).1 (by decide)⟩

/-- C9: qualifier stripping removes the first occurrence of the qualifier
substring anywhere in the path, not only a trailing suffix: the general
first-occurrence property of the JS `replace` model, and the concrete
behaviours at the three sites — the styling qualifier `.tw` in
`createCopyFiles`, the render qualifier `.ejs` and the append qualifier
`.append` — including a `.tw` occurrence inside `network.twin.ts`. -/
theorem c9_qualifier_first_occurrence :
    (∀ (s pat : List Char), pat ≠ [] →
      ∀ pre suf : List Char, s = pre ++ pat ++ suf →
        ∃ pre2 suf2 : List Char, s = pre2 ++ pat ++ suf2
          ∧ replaceFirstAux pat s = pre2 ++ suf2
          ∧ pre2.length ≤ pre.length)
    ∧ copyFilesTargetName "network.twin.ts" = "networkin.ts"
    ∧ jsReplace "a.ejs.config.ejs" ".ejs" = "a.config.ejs"
    ∧ jsReplace "dir.append/file.append" ".append" = "dir/file.append" := by
  refine ⟨?_, by decide, by decide, by decide⟩
  intro s pat hne
  induction s with
  | nil =>
    intro pre suf h
    exfalso
    rcases List.append_eq_nil.mp h.symm with ⟨h1, -⟩
    rcases List.append_eq_nil.mp h1 with ⟨-, hpat⟩
    exact hne hpat
  | cons c rest ih =>
    intro pre suf h
    by_cases hp : pat.isPrefixOf (c :: rest) = true
    · rcases List.isPrefixOf_iff_prefix.mp hp with ⟨t, ht⟩
      refine ⟨[], t, by simpa using ht.symm, ?_, by simp⟩
      show replaceFirstAux pat (c :: rest) = [] ++ t
      simp only [replaceFirstAux]
      rw [if_pos hp, ← ht, List.drop_left]
      simp
    · cases pre with
      | nil =>
        exfalso
        apply hp
        rw [List.isPrefixOf_iff_prefix]
        exact ⟨suf, by simpa using h.symm⟩
      | cons c2 pre0 =>
        have hc : c = c2 ∧ rest = pre0 ++ pat ++ suf := by simpa using h
        rcases hc with ⟨rfl, hrest⟩
        rcases ih pre0 suf hrest with ⟨pre2, suf2, heq, hres, hlen⟩
        refine ⟨c :: pre2, suf2, by simp [heq], ?_, by simpa using Nat.succ_le_succ hlen⟩
        show replaceFirstAux pat (c :: rest) = (c :: pre2) ++ suf2
        simp only [replaceFirstAux]
        rw [if_neg hp, hres]
        simp

/-- C9 witness: the first `.tw` occurrence of `network.twin.ts` is the
non-trailing one, and stripping removes exactly it. -/
theorem c9_qualifier_first_occurrence_witness :
    (".tw".data ≠ ([] : List Char)
      ∧ "network.twin.ts".data = "network".data ++ ".tw".data ++ "in.ts".data)
    ∧ ∃ pre2 suf2 : List Char, "network.twin.ts".data = pre2 ++ ".tw".data ++ suf2
        ∧ replaceFirstAux ".tw".data "network.twin.ts".data = pre2 ++ suf2
        ∧ pre2.length ≤ "network".data.length :=
  ⟨⟨by decide, by decide⟩,
    c9_qualifier_first_occurrence.1 "network.twin.ts".data ".tw".data
      (by decide) "network".data "in.ts".data (by decide)⟩

/-! ### Lemmas for the add-on phase loop -/

theorem catEvents_append (l1 l2 : List AddOn) :
    catEvents (l1 ++ l2) = catEvents l1 ++ catEvents l2 := by
  induction l1 with
  | nil => rfl
  | cons x rest ih => simp [catEvents, ih]

theorem filter_per_one (x : AddOn) (i : String) :
    (perAddOnEvents x).filter (effectOf i) =
      if x.id = i then perAddOnEvents x else [] := by
  by_cases hid : x.id = i
  · have hb : (x.id == i) = true := beq_iff_eq.mpr hid
    cases hha : x.hasAssets <;> rcases hcmd : x.command with _ | c <;>
      simp [perAddOnEvents, effectOf, hha, hcmd, hb, hid]
  · have hb : (x.id == i) = false := beq_eq_false_iff_ne.mpr hid
    cases hha : x.hasAssets <;> rcases hcmd : x.command with _ | c <;>
      simp [perAddOnEvents, effectOf, hha, hcmd, hb, hid]

theorem filter_per_two (x : AddOn) (i j : String) :
    (perAddOnEvents x).filter (fun e => effectOf i e || effectOf j e) =
      if x.id = i ∨ x.id = j then perAddOnEvents x else [] := by
  by_cases hi : x.id = i
  · have hb : (x.id == i) = true := beq_iff_eq.mpr hi
    cases hha : x.hasAssets <;> rcases hcmd : x.command with _ | c <;>
      simp [perAddOnEvents, effectOf, hha, hcmd, hb, hi]
  · have hb : (x.id == i) = false := beq_eq_false_iff_ne.mpr hi
    by_cases hj : x.id = j
    · have hb2 : (x.id == j) = true := beq_iff_eq.mpr hj
      cases hha : x.hasAssets <;> rcases hcmd : x.command with _ | c <;>
        simp [perAddOnEvents, effectOf, hha, hcmd, hb, hb2, hi, hj]
    · have hb2 : (x.id == j) = false := beq_eq_false_iff_ne.mpr hj
      cases hha : x.hasAssets <;> rcases hcmd : x.command with _ | c <;>
        simp [perAddOnEvents, effectOf, hha, hcmd, hb, hb2, hi, hj]

theorem filter_catEvents_one (l : List AddOn) (i : String) :
    (catEvents l).filter (effectOf i) =
      catEvents (l.filter (fun x => x.id == i)) := by
  induction l with
  | nil => rfl
  | cons x rest ih =>
    by_cases hid : x.id = i
    · simp [catEvents, List.filter_append, List.filter_cons, filter_per_one, hid, ih,
        beq_iff_eq.mpr hid]
    · simp [catEvents, List.filter_append, List.filter_cons, filter_per_one, hid, ih,
        beq_eq_false_iff_ne.mpr hid]

theorem filter_catEvents_two (l : List AddOn) (i j : String) :
    (catEvents l).filter (fun e => effectOf i e || effectOf j e) =
      catEvents (l.filter (fun x => x.id == i || x.id == j)) := by
  induction l with
  | nil => rfl
  | cons x rest ih =>
    by_cases hi : x.id = i
    · simp [catEvents, List.filter_append, List.filter_cons, filter_per_two, hi, ih,
        beq_iff_eq.mpr hi]
    · by_cases hj : x.id = j
      · simp [catEvents, List.filter_append, List.filter_cons, filter_per_two, hi, hj, ih,
          beq_eq_false_iff_ne.mpr hi, beq_iff_eq.mpr hj]
      · simp [catEvents, List.filter_append, List.filter_cons, filter_per_two, hi, hj, ih,
          beq_eq_false_iff_ne.mpr hi, beq_eq_false_iff_ne.mpr hj]

theorem addOnPhaseTrace_eq (chosen : List AddOn) :
    addOnPhaseTrace chosen =
      catEvents (chosen.filter (fun a => a.phase == Phase.setup)) ++
        catEvents (chosen.filter (fun a => a.phase == Phase.addon)) := by
  simp [addOnPhaseTrace]

theorem filter_id_nil {l : List AddOn} {p : AddOn → Bool}
    (h : ∀ x ∈ l, p x = false) : l.filter p = [] := by
  induction l with
  | nil => rfl
  | cons x rest ih =>
    rw [List.filter_cons, h x (List.mem_cons_self x rest)]
    exact ih (fun y hy => h y (List.mem_cons_of_mem x hy))

theorem filter_id_singleton {l : List AddOn} (hn : (l.map AddOn.id).Nodup)
    {a : AddOn} (ha : a ∈ l) : l.filter (fun x => x.id == a.id) = [a] := by
  induction l with
  | nil => cases ha
  | cons x rest ih =>
    rw [List.map_cons] at hn
    have hn2 := List.nodup_cons.mp hn
    rcases List.mem_cons.mp ha with rfl | hmem
    · have hrest : rest.filter (fun y => y.id == a.id) = [] := by
        refine filter_id_nil (fun b hb => ?_)
        refine beq_eq_false_iff_ne.mpr (fun he => hn2.1 ?_)
        exact he ▸ List.mem_map_of_mem AddOn.id hb
      simp [List.filter_cons, hrest]
    · have hxid : x.id ≠ a.id := by
        intro he
        exact hn2.1 (he ▸ List.mem_map_of_mem AddOn.id hmem)
      rw [List.filter_cons, beq_eq_false_iff_ne.mpr hxid]
      exact ih hn2.2 hmem

theorem filter_or_pair {u : List AddOn} {v w : List AddOn} {a b : AddOn}
    (hn : ((u ++ (a :: (v ++ (b :: w)))).map AddOn.id).Nodup) :
    (u ++ (a :: (v ++ (b :: w)))).filter (fun x => x.id == a.id || x.id == b.id) =
      [a, b] := by
  induction u with
  | nil =>
    rw [List.nil_append] at hn ⊢
    rw [List.map_cons] at hn
    have hn2 := List.nodup_cons.mp hn
    have hrest : ∀ x ∈ v ++ (b :: w), x.id ≠ a.id := by
      intro x hx he
      exact hn2.1 (he ▸ List.mem_map_of_mem AddOn.id hx)
    have hcongr : (v ++ (b :: w)).filter (fun x => x.id == a.id || x.id == b.id) =
        (v ++ (b :: w)).filter (fun x => x.id == b.id) := by
      refine List.filter_congr (fun x hx => ?_)
      rw [beq_eq_false_iff_ne.mpr (hrest x hx)]
      simp
    have hb : b ∈ v ++ (b :: w) := List.mem_append_right v (List.mem_cons_self b w)
    rw [List.filter_cons]
    have hself : (a.id == a.id || a.id == b.id) = true := by simp
    rw [hself]
    rw [hcongr, filter_id_singleton hn2.2 hb]
    rfl
  | cons c u2 ih =>
    rw [List.cons_append] at hn ⊢
    rw [List.map_cons] at hn
    have hn2 := List.nodup_cons.mp hn
    have hca : c.id ≠ a.id := by
      intro he
      refine hn2.1 (he ▸ List.mem_map_of_mem AddOn.id ?_)
      exact List.mem_append_right u2 (List.mem_cons_self a (v ++ (b :: w)))
    have hcb : c.id ≠ b.id := by
      intro he
      refine hn2.1 (he ▸ List.mem_map_of_mem AddOn.id ?_)
      refine List.mem_append_right u2 (List.mem_cons_of_mem a ?_)
      exact List.mem_append_right v (List.mem_cons_self b w)
    rw [List.filter_cons]
    have hfalse : (c.id == a.id || c.id == b.id) = false := by
      rw [beq_eq_false_iff_ne.mpr hca, beq_eq_false_iff_ne.mpr hcb]
      rfl
    rw [hfalse]
    exact ih hn2.2

theorem mem_filter_phase_ne_id {chosen : List AddOn}
    (hn : (chosen.map AddOn.id).Nodup) {a : AddOn} (ha : a ∈ chosen)
    {ph : Phase} (hph : a.phase ≠ ph) :
    ∀ x ∈ chosen.filter (fun y => y.phase == ph), x.id ≠ a.id := by
  intro x hx he
  have hx2 := (List.mem_filter.mp hx).1
  have hxph : x.phase = ph := beq_iff_eq.mp (List.mem_filter.mp hx).2
  have : x = a := List.inj_on_of_nodup_map hn hx2 ha he
  exact hph (this ▸ hxph)

theorem nodup_map_id_filter {chosen : List AddOn}
    (hn : (chosen.map AddOn.id).Nodup) (p : AddOn → Bool) :
    ((chosen.filter p).map AddOn.id).Nodup :=
  ((List.filter_sublist chosen).map AddOn.id).nodup hn

/-- C6: add-on composition is two-phase and ordered.  Restricting the
composition trace to the events of particular add-ons shows: (1) each
selected add-on contributes exactly its own contiguous event block — its
asset composition followed by its optional post-command, so the command
runs after that add-on's assets and before any later add-on's events;
(2) a setup-phase add-on's whole block (assets and command) precedes an
add-on-phase add-on's block; (3) two add-ons of the same phase appear in
selection order. -/
theorem c6_phase_ordering (chosen : List AddOn) (hn : (chosen.map AddOn.id).Nodup)
    (a b : AddOn) (ha : a ∈ chosen) (hb : b ∈ chosen) :
    ((addOnPhaseTrace chosen).filter (effectOf a.id) = perAddOnEvents a)
    ∧ (a.phase = Phase.setup → b.phase = Phase.addon →
        (addOnPhaseTrace chosen).filter (fun e => effectOf a.id e || effectOf b.id e)
          = perAddOnEvents a ++ perAddOnEvents b)
    ∧ (∀ l1 l2 l3 : List AddOn, chosen = l1 ++ (a :: (l2 ++ (b :: l3))) →
        a.phase = b.phase →
        (addOnPhaseTrace chosen).filter (fun e => effectOf a.id e || effectOf b.id e)
          = perAddOnEvents a ++ perAddOnEvents b) := by
  refine ⟨?_, ?_, ?_⟩
  · rw [addOnPhaseTrace_eq, List.filter_append, filter_catEvents_one,
      filter_catEvents_one]
    cases hph : a.phase
    · have haS : a ∈ chosen.filter (fun y => y.phase == Phase.setup) :=
        List.mem_filter.mpr ⟨ha, by simp [hph]⟩
      have h1 := filter_id_singleton
        (nodup_map_id_filter hn (fun y => y.phase == Phase.setup)) haS
      have h2 : (chosen.filter (fun y => y.phase == Phase.addon)).filter
          (fun x => x.id == a.id) = [] :=
        filter_id_nil (fun x hx => beq_eq_false_iff_ne.mpr
          (mem_filter_phase_ne_id hn ha (by simp [hph]) x hx))
      rw [h1, h2]
      simp [catEvents]
    · have haA : a ∈ chosen.filter (fun y => y.phase == Phase.addon) :=
        List.mem_filter.mpr ⟨ha, by simp [hph]⟩
      have h1 := filter_id_singleton
        (nodup_map_id_filter hn (fun y => y.phase == Phase.addon)) haA
      have h2 : (chosen.filter (fun y => y.phase == Phase.setup)).filter
          (fun x => x.id == a.id) = [] :=
        filter_id_nil (fun x hx => beq_eq_false_iff_ne.mpr
          (mem_filter_phase_ne_id hn ha (by simp [hph]) x hx))
      rw [h1, h2]
      simp [catEvents]
  · intro hpa hpb
    rw [addOnPhaseTrace_eq, List.filter_append, filter_catEvents_two,
      filter_catEvents_two]
    have hS : (chosen.filter (fun y => y.phase == Phase.setup)).filter
        (fun x => x.id == a.id || x.id == b.id) = [a] := by
      have hcongr : (chosen.filter (fun y => y.phase == Phase.setup)).filter
          (fun x => x.id == a.id || x.id == b.id) =
          (chosen.filter (fun y => y.phase == Phase.setup)).filter
            (fun x => x.id == a.id) := by
        refine List.filter_congr (fun x hx => ?_)
        rw [beq_eq_false_iff_ne.mpr
          (mem_filter_phase_ne_id hn hb (by simp [hpb]) x hx)]
        simp
      rw [hcongr]
      exact filter_id_singleton
        (nodup_map_id_filter hn (fun y => y.phase == Phase.setup))
        (List.mem_filter.mpr ⟨ha, by simp [hpa]⟩)
    have hA : (chosen.filter (fun y => y.phase == Phase.addon)).filter
        (fun x => x.id == a.id || x.id == b.id) = [b] := by
      have hcongr : (chosen.filter (fun y => y.phase == Phase.addon)).filter
          (fun x => x.id == a.id || x.id == b.id) =
          (chosen.filter (fun y => y.phase == Phase.addon)).filter
            (fun x => x.id == b.id) := by
        refine List.filter_congr (fun x hx => ?_)
        rw [beq_eq_false_iff_ne.mpr
          (mem_filter_phase_ne_id hn ha (by simp [hpa]) x hx)]
        simp
      rw [hcongr]
      exact filter_id_singleton
        (nodup_map_id_filter hn (fun y => y.phase == Phase.addon))
        (List.mem_filter.mpr ⟨hb, by simp [hpb]⟩)
    rw [hS, hA]
    simp [catEvents]
  · intro l1 l2 l3 hsplit hsame
    rw [addOnPhaseTrace_eq, List.filter_append, filter_catEvents_two,
      filter_catEvents_two]
    cases hph : a.phase
    · have hpb : b.phase = Phase.setup := hsame ▸ hph
      have hSsplit : chosen.filter (fun y => y.phase == Phase.setup) =
          (l1.filter (fun y => y.phase == Phase.setup)) ++
            (a :: ((l2.filter (fun y => y.phase == Phase.setup)) ++
              (b :: (l3.filter (fun y => y.phase == Phase.setup))))) := by
        rw [hsplit]
        simp [List.filter_append, List.filter_cons, hph, hpb]
      have hnS : ((chosen.filter (fun y => y.phase == Phase.setup)).map
          AddOn.id).Nodup := nodup_map_id_filter hn _
      rw [hSsplit] at hnS
      have hS : (chosen.filter (fun y => y.phase == Phase.setup)).filter
          (fun x => x.id == a.id || x.id == b.id) = [a, b] := by
        rw [hSsplit]
        exact filter_or_pair hnS
      have hA : (chosen.filter (fun y => y.phase == Phase.addon)).filter
          (fun x => x.id == a.id || x.id == b.id) = [] := by
        refine filter_id_nil (fun x hx => ?_)
        rw [beq_eq_false_iff_ne.mpr
            (mem_filter_phase_ne_id hn ha (by simp [hph]) x hx),
          beq_eq_false_iff_ne.mpr
            (mem_filter_phase_ne_id hn hb (by simp [hpb]) x hx)]
        rfl
      rw [hS, hA]
      simp [catEvents]
    · have hpb : b.phase = Phase.addon := hsame ▸ hph
      have hSsplit : chosen.filter (fun y => y.phase == Phase.addon) =
          (l1.filter (fun y => y.phase == Phase.addon)) ++
            (a :: ((l2.filter (fun y => y.phase == Phase.addon)) ++
              (b :: (l3.filter (fun y => y.phase == Phase.addon))))) := by
        rw [hsplit]
        simp [List.filter_append, List.filter_cons, hph, hpb]
      have hnS : ((chosen.filter (fun y => y.phase == Phase.addon)).map
          AddOn.id).Nodup := nodup_map_id_filter hn _
      rw [hSsplit] at hnS
      have hS : (chosen.filter (fun y => y.phase == Phase.addon)).filter
          (fun x => x.id == a.id || x.id == b.id) = [a, b] := by
        rw [hSsplit]
        exact filter_or_pair hnS
      have hA : (chosen.filter (fun y => y.phase == Phase.setup)).filter
          (fun x => x.id == a.id || x.id == b.id) = [] := by
        refine filter_id_nil (fun x hx => ?_)
        rw [beq_eq_false_iff_ne.mpr
            (mem_filter_phase_ne_id hn ha (by simp [hph]) x hx),
          beq_eq_false_iff_ne.mpr
            (mem_filter_phase_ne_id hn hb (by simp [hpb]) x hx)]
        rfl
      rw [hS, hA]
      simp [catEvents]

/-- C6 witness: with a setup add-on and an add-on-phase add-on selected in
reverse order, the trace restricted to their events is still the setup
add-on's assets, then its command, then the other add-on's assets. -/
theorem c6_phase_ordering_witness :
    (([addOnB, addOnA].map AddOn.id).Nodup
      ∧ addOnA.phase = Phase.setup ∧ addOnB.phase = Phase.addon)
    ∧ (addOnPhaseTrace [addOnB, addOnA]).filter
        (fun e => effectOf addOnA.id e || effectOf addOnB.id e)
        = perAddOnEvents addOnA ++ perAddOnEvents addOnB :=
  ⟨⟨by decide, rfl, rfl⟩,
    ((c6_phase_ordering [addOnB, addOnA] (by decide) addOnA addOnB
      (by simp [addOnA, addOnB]) (by simp [addOnA, addOnB])).2.1 rfl rfl)⟩

/-- C10 witness: the file-router template with `--add-ons` resolves to
options with tailwind forced on. -/
theorem c10_addOns_force_tailwind_witness :
    cliFr.addOns = true
    ∧ programAction "demo" cliFr =
        Except.ok ("demo", mkOptions { cliFr with tailwind := true })
    ∧ (mkOptions { cliFr with tailwind := true }).tailwind = true
    ∧ (mkOptions { cliFr with tailwind := true }).addOns = true :=
  ⟨rfl, rfl,
    (c10_addOns_force_tailwind "demo" cliFr []).1 rfl
      (mkOptions { cliFr with tailwind := true }) rfl⟩

end CTA
